import Mathlib

/-!
Verification of the greenthread-future runtime (`src/lib.rs`, `src/x86_64.rs`).

The library converts a blocking closure into a pollable future by giving it a
green-thread stack inside a size-aligned Thread Control Block (TCB).  We embed
the data model and the operations shallowly:

* machine words are `Nat` (pointers are addresses; the null pointer is `0`);
* the tagged state, the TCB header and the saved-register record are Lean
  structures mirroring the Rust declarations field by field;
* a closure is embedded by its observable behaviour: the finite sequence of
  cooperative calls (`yield_now` / `park`) it performs, followed by its return
  value.  The suspended continuation of the green thread (which in the code
  lives on the green-thread stack) is modelled explicitly as a `Phase`;
* the effectful primitives (`yield_now`, `park`, `current_waker`, the entry
  function) are embedded as `Except`-valued functions whose error case models
  the fatal `assert!`/`unwrap` paths, and whose result records the sequence of
  externally visible actions (wakes and context switches) in program order;
* `poll` is embedded as a function from the model state (and the supplied
  waker) to the next model state and a `Ready`/`Pending` result, with the
  context switch into the green thread modelled by running the thread until
  its next suspension point.
-/

/-- `RAW_SIZE` from src/lib.rs:50 — size (and alignment) of the TCB block. -/
def RAW_SIZE : Nat := 0x2000

/-- `CANARY` from src/lib.rs:55 (64-bit targets). -/
def CANARY : Nat := 0xcafebabedeadbeaf

/-- Wakers are modelled by an identifier; `clone` of a waker is the identity on
the identifier, and a wake event records the identifier woken. -/
abbrev Waker := Nat

/-- `ThreadContext` from src/x86_64.rs:4-12 — the callee-saved registers and
the return address slot `rip` of a suspended execution. -/
structure ThreadContext where
  rbx : Nat
  rbp : Nat
  r12 : Nat
  r13 : Nat
  r14 : Nat
  r15 : Nat
  rip : Nat
deriving DecidableEq, Repr

/-- `ThreadContext::set_pc` from src/x86_64.rs:43-45: writes the `rip` slot and
nothing else. -/
def ThreadContext.set_pc (c : ThreadContext) (pc : Nat) : ThreadContext :=
  { c with rip := pc }

/-- `State<F, T>` from src/lib.rs:72-77. -/
inductive State (F T : Type) where
  | Ready (f : F)
  | Running
  | Exited (t : T)
  | Invalid
deriving DecidableEq, Repr

/-- `State::take_ret` from src/lib.rs:81-91.  The Rust method mutates `self`
and returns an `Option<T>`; we return the pair (returned option, new state).
The method tests for `Exited` and, only in that case, `mem::replace`s the
state with `Invalid` and returns the payload. -/
def State.take_ret {F T : Type} : State F T → Option T × State F T
  | .Exited t => (some t, .Invalid)
  | s => (none, s)

/-- Position of a state in the progression Ready → Running → Exited →
Invalid. -/
def State.rank {F T : Type} : State F T → Nat
  | .Ready _ => 0
  | .Running => 1
  | .Exited _ => 2
  | .Invalid => 3

/-- `TCB<F, T>` from src/lib.rs:32-46, field by field.  `context_ptr` is a raw
pointer, modelled as an address (`0` = null). -/
structure TCB (F T : Type) where
  context_ptr : Nat
  waker : Option Waker
  canary : Nat
  state : State F T
deriving DecidableEq, Repr

/-- The stack-pointer mask `sp & !(RAW_SIZE - 1)` from src/lib.rs:60, on
64-bit `usize`: `!(RAW_SIZE - 1) = 2^64 - RAW_SIZE`. -/
def maskSp (sp : Nat) : Nat := sp &&& (2 ^ 64 - RAW_SIZE)

/-- The diagnostic of the canary assertion in src/lib.rs:63-66. -/
def canaryMsg : String := "canary is changed. maybe stack overflow!"

/-- `TCB::current` from src/lib.rs:59-68: mask the stack pointer down to the
block base, read the TCB stored there, and assert the canary before returning
it.  Memory is modelled as a map from block base addresses to TCB headers; the
failed assertion is the `Except.error` case. -/
def TCB.current {F T : Type} (mem : Nat → TCB F T) (sp : Nat) :
    Except String (TCB F T) :=
  let tcb := mem (maskSp sp)
  if tcb.canary = CANARY then .ok tcb else .error canaryMsg

/-- Externally visible actions of a cooperative primitive, in program order:
a `wake_by_ref` on a waker, or a `ThreadContext::switch` on the pointer cell
at the given address. -/
inductive PrimAction where
  | wake (w : Waker)
  | switch (p : Nat)
deriving DecidableEq, Repr

/-- The panic message of `Option::unwrap` on `None`. -/
def unwrapMsg : String := "called Option::unwrap() on a None value"

/-- `yield_now` from src/lib.rs:170-179: recover the current TCB (asserting
the canary), wake the stored waker (`unwrap` panics if it is absent), then
switch on the TCB's `context_ptr` cell.  The result lists the actions in the
order they are performed. -/
def yield_now {F T : Type} (mem : Nat → TCB F T) (sp : Nat) :
    Except String (List PrimAction) :=
  match TCB.current mem sp with
  | .error e => .error e
  | .ok tcb =>
    match tcb.waker with
    | some w => .ok [PrimAction.wake w, PrimAction.switch tcb.context_ptr]
    | none => .error unwrapMsg

/-- `park` from src/lib.rs:182-189: recover the current TCB (asserting the
canary), then switch on the TCB's `context_ptr` cell, without waking. -/
def park {F T : Type} (mem : Nat → TCB F T) (sp : Nat) :
    Except String (List PrimAction) :=
  match TCB.current mem sp with
  | .error e => .error e
  | .ok tcb => .ok [PrimAction.switch tcb.context_ptr]

/-- `current_waker` from src/lib.rs:192-198: recover the current TCB
(asserting the canary) and return a clone of the stored waker (`unwrap`
panics if it is absent). -/
def current_waker {F T : Type} (mem : Nat → TCB F T) (sp : Nat) :
    Except String Waker :=
  match TCB.current mem sp with
  | .error e => .error e
  | .ok tcb =>
    match tcb.waker with
    | some w => .ok w
    | none => .error unwrapMsg

/-- The `mem::replace(&mut tcb.state, State::Running)` at src/lib.rs:156,
together with the pattern match on the old value: the state unconditionally
becomes `Running`; the old value yields the closure when it was `Ready`. -/
def entryReplace {F T : Type} : State F T → State F T × Option F
  | .Ready f => (.Running, some f)
  | _ => (.Running, none)

/-- The panic message of the `unreachable!()` at src/lib.rs:160. -/
def unreachableMsg : String := "internal error: entered unreachable code"

/-- The beginning of `entry` from src/lib.rs:150-161, up to the extraction of
the closure: recover the current TCB (asserting the canary), replace the state
with `Running`, and return the extracted closure together with the updated TCB
header; a non-`Ready` state hits `unreachable!()`.  The execution of the
closure itself is modelled by the trace semantics below. -/
def entryBegin {F T : Type} (mem : Nat → TCB F T) (sp : Nat) :
    Except String (F × TCB F T) :=
  match TCB.current mem sp with
  | .error e => .error e
  | .ok tcb =>
    match entryReplace tcb.state with
    | (s1, some f) => .ok (f, { tcb with state := s1 })
    | (_, none) => .error unreachableMsg

/-- Size of `ThreadFuture<F, T>` (src/lib.rs:21-25) as a function of the size
of `TCB<F, T>`: a `#[repr(C, align(0x2000))]` union of the TCB and of
`[usize; RAW_SIZE / 8]` (RAW_SIZE bytes); its size is the largest field size
rounded up to the alignment `RAW_SIZE`. -/
def unionSize (tcbSize : Nat) : Nat :=
  (max tcbSize RAW_SIZE + (RAW_SIZE - 1)) / RAW_SIZE * RAW_SIZE

/-- `ThreadFuture::from` (src/lib.rs:103-113): asserts
`size_of::<Self>() == RAW_SIZE` with message "TCB size exceed", then
initializes the TCB in place with a null `context_ptr`, no waker, the magic
canary and state `Ready f`.  `tcbSize` is the size of `TCB<F, T>`, which
depends on the sizes of `F` and `T`. -/
def ThreadFuture.fromClosure {F T : Type} (f : F) (tcbSize : Nat) :
    Except String (TCB F T) :=
  if unionSize tcbSize = RAW_SIZE then
    .ok { context_ptr := 0, waker := none, canary := CANARY, state := .Ready f }
  else
    .error "TCB size exceed"

/-- A drop of an embedded value performed by drop glue. -/
inductive DropAction (F T : Type) where
  | dropClosure (f : F)
  | dropRet (t : T)
deriving DecidableEq, Repr

/-- The drop glue of `ThreadFuture<F, T>` as Rust defines it for the
declaration at src/lib.rs:21-25: `ThreadFuture` is a `union`, its `tcb` field
is wrapped in `ManuallyDrop`, and the crate defines no `Drop` impl for the
type, so dropping the future drops none of the values embedded in the TCB,
whatever the current state. -/
def ThreadFuture.dropGlue {F T : Type} (_s : State F T) : List (DropAction F T) :=
  []

/-- A cooperative call performed by the closure body. -/
inductive Prim where
  | yieldNow
  | park
deriving DecidableEq, Repr

/-- A closure embedded by its observable behaviour: it performs the
cooperative calls in `ops` in order, then returns `ret`. -/
structure Closure (T : Type) where
  ops : List Prim
  ret : T
deriving DecidableEq, Repr

/-- Where the green thread stands: not yet entered; suspended inside a
cooperative call, with the remaining behaviour recorded (in the code this is
the continuation frozen on the green-thread stack); or finished, i.e.
suspended in the final `yield_now` of `entry` after storing `Exited`. -/
inductive Phase (T : Type) where
  | notStarted
  | suspended (rest : List Prim) (ret : T)
  | finished
deriving DecidableEq, Repr

/-- The state of one `ThreadFuture` between polls. -/
structure Model (T : Type) where
  /-- base address of the `RAW_SIZE`-aligned block -/
  base : Nat
  tcb : TCB (Closure T) T
  phase : Phase T
  /-- contents of the `ThreadContext` record at the top of the stack region -/
  context : ThreadContext
  /-- number of times the closure has been invoked -/
  calls : Nat
  /-- log of wake events, in order -/
  wakes : List Waker
  /-- a panicking path (`unreachable!()` or a failed unwrap) was hit -/
  stuck : Bool
deriving DecidableEq, Repr

/-- Abstract code address of the monomorphized `entry::<F, T>` function
(a link-time constant). -/
def entryAddress : Nat := 0x401000

/-- Offset of the context record placed at the top of the block by the first
poll (src/lib.rs:129): `((raw + 1) as *mut ThreadContext) - 1`, i.e.
`RAW_SIZE - size_of::<ThreadContext>()`, the context having seven 8-byte
fields. -/
def contextOffset : Nat := RAW_SIZE - 7 * 8

/-- A freshly constructed future (`ThreadFuture::from`, src/lib.rs:103-113)
placed at `base`, with arbitrary initial garbage `g` in the stack memory that
will hold the context record. -/
def initModel {T : Type} (c : Closure T) (base : Nat) (g : ThreadContext) :
    Model T :=
  { base := base
    tcb := { context_ptr := 0, waker := none, canary := CANARY, state := .Ready c }
    phase := .notStarted
    context := g
    calls := 0
    wakes := []
    stuck := false }

/-- Run the green thread from a resumption point until it next switches back
to the executor.  `ops` are the remaining cooperative calls of the closure
and `ret` its eventual return value.  A `yieldNow` wakes the stored waker
(src/lib.rs:175, the unwrap panics when it is absent) and suspends; a `park`
suspends without waking; when no calls remain the closure has returned, so
`entry` (src/lib.rs:157-162) stores `Exited ret` and calls `yield_now`, which
wakes and suspends for good. -/
def runOps {T : Type} (m : Model T) : List Prim → T → Model T
  | .yieldNow :: rest, ret =>
      match m.tcb.waker with
      | some w => { m with phase := .suspended rest ret, wakes := m.wakes ++ [w] }
      | none => { m with stuck := true }
  | .park :: rest, ret => { m with phase := .suspended rest ret }
  | [], ret =>
      match m.tcb.waker with
      | some w =>
          { m with tcb := { m.tcb with state := .Exited ret },
                   phase := .finished,
                   wakes := m.wakes ++ [w] }
      | none =>
          { m with tcb := { m.tcb with state := .Exited ret }, stuck := true }

/-- The effect of `ThreadContext::switch` into the green thread
(src/lib.rs:135): the thread runs until it switches back.  Entering a
`notStarted` thread runs `entry` (src/lib.rs:150-164): the state is
`mem::replace`d with `Running` — extracting the closure when the old state
was `Ready`, hitting `unreachable!()` otherwise — and the closure then runs.
Entering a suspended thread resumes its remaining behaviour.  Entering a
finished thread resumes after the final `yield_now` inside `entry` and hits
the `unreachable!()` at src/lib.rs:163. -/
def resume {T : Type} (m : Model T) : Model T :=
  match m.phase with
  | .notStarted =>
      match entryReplace m.tcb.state with
      | (s1, some f) =>
          runOps { m with tcb := { m.tcb with state := s1 }, calls := m.calls + 1 }
            f.ops f.ret
      | (s1, none) => { m with tcb := { m.tcb with state := s1 }, stuck := true }
  | .suspended rest ret => runOps m rest ret
  | .finished => { m with stuck := true }

/-- The result of one `poll` (`core::task::Poll<T>`). -/
inductive PollRes (T : Type) where
  | ready (t : T)
  | pending
deriving DecidableEq, Repr

/-- `ThreadFuture::poll` from src/lib.rs:123-146.  On a poll that finds the
state `Ready`, first initialize: compute the address of the context record at
the top of the block (`base + contextOffset`), `set_pc` it to the entry
function, store its address in `context_ptr`, and store a clone of the
supplied waker.  Then switch into the thread, and finally convert the
resulting state to the poll result via `take_ret`. -/
def pollModel {T : Type} (m : Model T) (w : Waker) : Model T × PollRes T :=
  let m1 :=
    match m.tcb.state with
    | .Ready _ =>
        { m with context := m.context.set_pc entryAddress,
                 tcb := { m.tcb with context_ptr := m.base + contextOffset,
                                     waker := some w } }
    | _ => m
  let m2 := resume m1
  let r := m2.tcb.state.take_ret
  ({ m2 with tcb := { m2.tcb with state := r.2 } },
   match r.1 with
   | some t => .ready t
   | none => .pending)

/-- Poll `n` times in sequence with waker `w`, collecting the results. -/
def pollSeq {T : Type} (m : Model T) (w : Waker) :
    Nat → List (PollRes T) × Model T
  | 0 => ([], m)
  | n + 1 =>
      let s := pollModel m w
      let rest := pollSeq s.1 w n
      (s.2 :: rest.1, rest.2)

/-- The state/phase pairs that occur together in reachable models: the thread
has not started exactly when the state is `Ready`; a suspended thread has
state `Running` and (because the first poll stored one) a populated waker
slot; a finished thread has state `Exited` or `Invalid`. -/
def coherent {T : Type} (m : Model T) : Bool :=
  match m.tcb.state, m.phase with
  | .Ready _, .notStarted => true
  | .Running, .suspended _ _ => m.tcb.waker.isSome
  | .Exited _, .finished => true
  | .Invalid, .finished => true
  | _, _ => false

/-- Modelled from the spec's words, for comparison with the code (§4.4
step 1 and §4.1 `set_pc`): the claimed first-poll initialization zeroes the
whole context record before setting the program counter, leaving every
callee-saved register slot zero-initialized. -/
def zeroedInitContext (pc : Nat) : ThreadContext :=
  (ThreadContext.mk 0 0 0 0 0 0 0).set_pc pc

/-- C10: `State::take_ret` returns `Some v` and replaces the state with
`Invalid` exactly when the state is `Exited v`; on `Ready`, `Running` and
`Invalid` it returns `None` and leaves the state unchanged. -/
theorem take_ret_exited_iff (F T : Type) (f : F) (t : T) :
    (State.Exited t : State F T).take_ret = (some t, State.Invalid) ∧
    (State.Ready f : State F T).take_ret = (none, State.Ready f) ∧
    (State.Running : State F T).take_ret = (none, State.Running) ∧
    (State.Invalid : State F T).take_ret = (none, State.Invalid) :=
  ⟨rfl, rfl, rfl, rfl⟩

/-- C5: `yield_now` first wakes the waker stored in the current TCB and then
switches on the TCB's `context_ptr` cell, while `park` performs the same
switch on the same cell without waking anything. -/
theorem yield_now_wakes_park_does_not (F T : Type) (mem : Nat → TCB F T)
    (sp : Nat) (w : Waker)
    (hc : (mem (maskSp sp)).canary = CANARY)
    (hw : (mem (maskSp sp)).waker = some w) :
    yield_now mem sp =
      .ok [PrimAction.wake w, PrimAction.switch (mem (maskSp sp)).context_ptr] ∧
    park mem sp = .ok [PrimAction.switch (mem (maskSp sp)).context_ptr] := by
  simp [yield_now, park, TCB.current, hc, hw]

theorem yield_now_wakes_park_does_not_witness :
    yield_now (fun _ => TCB.mk 77 (some 5) CANARY (State.Running : State Nat Nat)) 100 =
      .ok [PrimAction.wake 5, PrimAction.switch 77] ∧
    park (fun _ => TCB.mk 77 (some 5) CANARY (State.Running : State Nat Nat)) 100 =
      .ok [PrimAction.switch 77] :=
  yield_now_wakes_park_does_not Nat Nat
    (fun _ => TCB.mk 77 (some 5) CANARY State.Running) 100 5 rfl rfl

/-- C7: every recovery of the current TCB from the stack pointer — in
`TCB::current` itself and in each of `entry`, `yield_now`, `park` and
`current_waker` — checks, right after masking the stack pointer to the block
base, that the canary equals the magic constant, and a mismatch is the fatal
stack-overflow diagnostic. -/
theorem canary_checked_on_recovery (F T : Type) (mem : Nat → TCB F T) (sp : Nat)
    (hbad : (mem (maskSp sp)).canary ≠ CANARY) :
    TCB.current mem sp = .error canaryMsg ∧
    entryBegin mem sp = .error canaryMsg ∧
    yield_now mem sp = .error canaryMsg ∧
    park mem sp = .error canaryMsg ∧
    current_waker mem sp = .error canaryMsg := by
  simp [TCB.current, entryBegin, yield_now, park, current_waker, hbad]

theorem canary_checked_on_recovery_witness :
    TCB.current (fun _ => TCB.mk 0 none 3 (State.Running : State Nat Nat)) 0 =
      .error canaryMsg ∧
    entryBegin (fun _ => TCB.mk 0 none 3 (State.Running : State Nat Nat)) 0 =
      .error canaryMsg ∧
    yield_now (fun _ => TCB.mk 0 none 3 (State.Running : State Nat Nat)) 0 =
      .error canaryMsg ∧
    park (fun _ => TCB.mk 0 none 3 (State.Running : State Nat Nat)) 0 =
      .error canaryMsg ∧
    current_waker (fun _ => TCB.mk 0 none 3 (State.Running : State Nat Nat)) 0 =
      .error canaryMsg :=
  canary_checked_on_recovery Nat Nat
    (fun _ => TCB.mk 0 none 3 State.Running) 0 (by decide)


theorem pollSeq_succ_fst {T : Type} (m : Model T) (w : Waker) (n : Nat) :
    (pollSeq m w (n + 1)).1 =
      (pollModel m w).2 :: (pollSeq (pollModel m w).1 w n).1 :=
  rfl

theorem pollSeq_succ_snd {T : Type} (m : Model T) (w : Waker) (n : Nat) :
    (pollSeq m w (n + 1)).2 = (pollSeq (pollModel m w).1 w n).2 :=
  rfl

theorem poll_suspended_cons {T : Type} (m : Model T) (w w0 : Waker) (op : Prim)
    (rest : List Prim) (ret : T)
    (hs : m.tcb.state = State.Running)
    (hp : m.phase = Phase.suspended (op :: rest) ret)
    (hw : m.tcb.waker = some w0) :
    (pollModel m w).2 = PollRes.pending ∧
    (pollModel m w).1.tcb.state = State.Running ∧
    (pollModel m w).1.phase = Phase.suspended rest ret ∧
    (pollModel m w).1.tcb.waker = some w0 ∧
    (pollModel m w).1.calls = m.calls := by
  cases op <;>
    simp [pollModel, resume, runOps, hs, hp, hw, State.take_ret]

theorem poll_suspended_nil {T : Type} (m : Model T) (w w0 : Waker) (ret : T)
    (hs : m.tcb.state = State.Running)
    (hp : m.phase = Phase.suspended [] ret)
    (hw : m.tcb.waker = some w0) :
    (pollModel m w).2 = PollRes.ready ret ∧
    (pollModel m w).1.tcb.state = State.Invalid ∧
    (pollModel m w).1.phase = Phase.finished ∧
    (pollModel m w).1.tcb.waker = some w0 ∧
    (pollModel m w).1.calls = m.calls := by
  simp [pollModel, resume, runOps, hs, hp, hw, State.take_ret]

theorem pollSeq_suspended {T : Type} (w w0 : Waker) (ops : List Prim) :
    ∀ (ret : T) (m : Model T),
      m.tcb.state = State.Running →
      m.phase = Phase.suspended ops ret →
      m.tcb.waker = some w0 →
      (pollSeq m w (ops.length + 1)).1 =
        List.replicate ops.length PollRes.pending ++ [PollRes.ready ret] ∧
      (pollSeq m w (ops.length + 1)).2.calls = m.calls ∧
      (pollSeq m w (ops.length + 1)).2.phase = Phase.finished ∧
      (pollSeq m w (ops.length + 1)).2.tcb.state = State.Invalid ∧
      (pollSeq m w (ops.length + 1)).2.tcb.waker = some w0 := by
  induction ops with
  | nil =>
      intro ret m hs hp hw
      obtain ⟨h1, h2, h3, h4, h5⟩ := poll_suspended_nil m w w0 ret hs hp hw
      rw [List.length_nil, pollSeq_succ_fst, pollSeq_succ_snd, h1]
      simp [pollSeq, h2, h3, h4, h5]
  | cons op rest ih =>
      intro ret m hs hp hw
      obtain ⟨h1, h2, h3, h4, h5⟩ := poll_suspended_cons m w w0 op rest ret hs hp hw
      obtain ⟨g1, g2, g3, g4, g5⟩ := ih ret (pollModel m w).1 h2 h3 h4
      rw [List.length_cons, pollSeq_succ_fst, pollSeq_succ_snd, h1]
      refine ⟨?_, ?_, ?_, ?_, ?_⟩
      · rw [List.replicate_succ, List.cons_append, g1]
      · rw [g2, h5]
      · exact g3
      · exact g4
      · exact g5

theorem poll_init_nil {T : Type} (ret : T) (base : Nat) (g : ThreadContext)
    (w : Waker) :
    pollModel (initModel ⟨[], ret⟩ base g) w =
      ({ base := base
         tcb := { context_ptr := base + contextOffset, waker := some w,
                  canary := CANARY, state := State.Invalid }
         phase := Phase.finished
         context := g.set_pc entryAddress
         calls := 1
         wakes := [w]
         stuck := false }, PollRes.ready ret) := by
  simp [pollModel, initModel, resume, entryReplace, runOps, State.take_ret]

theorem poll_init_cons {T : Type} (op : Prim) (rest : List Prim) (ret : T)
    (base : Nat) (g : ThreadContext) (w : Waker) :
    (pollModel (initModel ⟨op :: rest, ret⟩ base g) w).2 = PollRes.pending ∧
    (pollModel (initModel ⟨op :: rest, ret⟩ base g) w).1.tcb.state = State.Running ∧
    (pollModel (initModel ⟨op :: rest, ret⟩ base g) w).1.phase =
      Phase.suspended rest ret ∧
    (pollModel (initModel ⟨op :: rest, ret⟩ base g) w).1.tcb.waker = some w ∧
    (pollModel (initModel ⟨op :: rest, ret⟩ base g) w).1.calls = 1 := by
  cases op <;>
    simp [pollModel, initModel, resume, entryReplace, runOps, State.take_ret]

theorem pollSeq_init {T : Type} (c : Closure T) (base : Nat) (g : ThreadContext)
    (w : Waker) :
    (pollSeq (initModel c base g) w (c.ops.length + 1)).1 =
      List.replicate c.ops.length PollRes.pending ++ [PollRes.ready c.ret] ∧
    (pollSeq (initModel c base g) w (c.ops.length + 1)).2.calls = 1 ∧
    (pollSeq (initModel c base g) w (c.ops.length + 1)).2.phase = Phase.finished ∧
    (pollSeq (initModel c base g) w (c.ops.length + 1)).2.tcb.state =
      State.Invalid := by
  obtain ⟨ops, ret⟩ := c
  cases ops with
  | nil =>
      rw [pollSeq_succ_fst, pollSeq_succ_snd, poll_init_nil]
      simp [pollSeq]
  | cons op rest =>
      obtain ⟨h1, h2, h3, h4, h5⟩ := poll_init_cons op rest ret base g w
      obtain ⟨g1, g2, g3, g4, g5⟩ :=
        pollSeq_suspended w w rest ret (pollModel (initModel ⟨op :: rest, ret⟩ base g) w).1
          h2 h3 h4
      rw [List.length_cons, pollSeq_succ_fst, pollSeq_succ_snd, h1]
      refine ⟨?_, ?_, g3, g4⟩
      · rw [List.replicate_succ, List.cons_append, g1]
      · rw [g2, h5]

theorem poll_finished {T : Type} (m : Model T) (w : Waker)
    (hs : m.tcb.state = State.Invalid)
    (hp : m.phase = Phase.finished) :
    (pollModel m w).1.tcb.state = State.Invalid ∧
    (pollModel m w).1.phase = Phase.finished ∧
    (pollModel m w).1.calls = m.calls := by
  simp [pollModel, resume, hs, hp, State.take_ret]

theorem pollSeq_finished {T : Type} (w : Waker) (k : Nat) :
    ∀ m : Model T,
      m.tcb.state = State.Invalid →
      m.phase = Phase.finished →
      (pollSeq m w k).2.calls = m.calls := by
  induction k with
  | zero => intro m _ _; rfl
  | succ n ih =>
      intro m hs hp
      obtain ⟨h1, h2, h3⟩ := poll_finished m w hs hp
      rw [pollSeq_succ_snd, ih _ h1 h2, h3]

theorem pollSeq_add_snd {T : Type} (w : Waker) (a : Nat) :
    ∀ (m : Model T) (b : Nat),
      (pollSeq m w (a + b)).2 = (pollSeq (pollSeq m w a).2 w b).2 := by
  induction a with
  | zero => intro m b; rw [Nat.zero_add]; rfl
  | succ n ih =>
      intro m b
      have h : n + 1 + b = n + b + 1 := by omega
      rw [h, pollSeq_succ_snd, pollSeq_succ_snd]
      exact ih (pollModel m w).1 b

/-- C1: for every closure (any behaviour `ops` followed by return value
`ret`), polling the future built from it until `Ready` yields exactly the
closure's return value — every poll before the last is `Pending`, the last is
`Ready ret` — and the closure is invoked exactly once over the whole
lifetime: after the completing poll, and after any number of further polls,
the invocation count is `1`. -/
theorem closure_returns_value_and_runs_once (T : Type) (c : Closure T)
    (base : Nat) (g : ThreadContext) (w : Waker) (k : Nat) :
    (pollSeq (initModel c base g) w (c.ops.length + 1)).1 =
      List.replicate c.ops.length PollRes.pending ++ [PollRes.ready c.ret] ∧
    (pollSeq (initModel c base g) w (c.ops.length + 1 + k)).2.calls = 1 := by
  obtain ⟨h1, h2, h3, h4⟩ := pollSeq_init c base g w
  refine ⟨h1, ?_⟩
  rw [pollSeq_add_snd w (c.ops.length + 1) (initModel c base g) k,
    pollSeq_finished w k _ h4 h3, h2]

/-- C6: for a closure that calls `yield_now` exactly `n` times before
returning `ret`, polling the future returns `Pending` exactly `n` times — one
per `yield_now` — and the `(n+1)`-th poll returns `Ready ret`. -/
theorem n_yields_give_n_pendings (T : Type) (n : Nat) (ret : T) (base : Nat)
    (g : ThreadContext) (w : Waker) :
    (pollSeq (initModel ⟨List.replicate n Prim.yieldNow, ret⟩ base g) w (n + 1)).1 =
      List.replicate n PollRes.pending ++ [PollRes.ready ret] := by
  have h := (pollSeq_init ⟨List.replicate n Prim.yieldNow, ret⟩ base g w).1
  simpa using h

theorem poll_monotone_coherent {T : Type} (m : Model T) (w : Waker)
    (hco : coherent m = true) :
    State.rank m.tcb.state ≤ State.rank (pollModel m w).1.tcb.state ∧
    coherent (pollModel m w).1 = true := by
  cases hs : m.tcb.state with
  | Ready f =>
      cases hp : m.phase with
      | notStarted =>
          obtain ⟨ops, ret⟩ := f
          cases ops with
          | nil =>
              simp [pollModel, resume, entryReplace, runOps, State.take_ret,
                State.rank, coherent, hs, hp]
          | cons op rest =>
              cases op <;>
                simp [pollModel, resume, entryReplace, runOps, State.take_ret,
                  State.rank, coherent, hs, hp]
      | suspended rest ret => simp [coherent, hs, hp] at hco
      | finished => simp [coherent, hs, hp] at hco
  | Running =>
      cases hp : m.phase with
      | notStarted => simp [coherent, hs, hp] at hco
      | suspended rest ret =>
          have hw : m.tcb.waker.isSome := by simpa [coherent, hs, hp] using hco
          obtain ⟨w0, hw0⟩ := Option.isSome_iff_exists.mp hw
          cases rest with
          | nil =>
              obtain ⟨h1, h2, h3, h4, h5⟩ := poll_suspended_nil m w w0 ret hs hp hw0
              simp [State.rank, coherent, h2, h3, h4, hs]
          | cons op rest2 =>
              obtain ⟨h1, h2, h3, h4, h5⟩ :=
                poll_suspended_cons m w w0 op rest2 ret hs hp hw0
              simp [State.rank, coherent, h2, h3, h4, hs]
      | finished => simp [coherent, hs, hp] at hco
  | Exited t =>
      cases hp : m.phase with
      | notStarted => simp [coherent, hs, hp] at hco
      | suspended rest ret => simp [coherent, hs, hp] at hco
      | finished =>
          simp [pollModel, resume, State.take_ret, State.rank, coherent, hs, hp]
  | Invalid =>
      cases hp : m.phase with
      | notStarted => simp [coherent, hs, hp] at hco
      | suspended rest ret => simp [coherent, hs, hp] at hco
      | finished =>
          simp [pollModel, resume, State.take_ret, State.rank, coherent, hs, hp]

/-- C2: the TCB state only advances along Ready → Running → Exited → Invalid:
the `mem::replace` in `entry` turns `Ready f` into `Running` while extracting
`f`; when the closure returns `v` the thread stores `Exited v`; `take_ret`
turns `Exited v` into `Invalid` exactly when extracting `v` and leaves every
other state unchanged; and across any poll of a coherent model the state's
rank never decreases (no backward transition is ever performed). -/
theorem state_only_advances :
    (∀ (F T : Type) (f : F),
       entryReplace (State.Ready f : State F T) = (State.Running, some f)) ∧
    (∀ (T : Type) (m : Model T) (ret : T),
       (runOps m [] ret).tcb.state = State.Exited ret) ∧
    (∀ (F T : Type) (t : T),
       (State.Exited t : State F T).take_ret = (some t, State.Invalid)) ∧
    (∀ (F T : Type) (s : State F T),
       (∀ t, s ≠ State.Exited t) → s.take_ret = (none, s)) ∧
    (∀ (T : Type) (m : Model T) (w : Waker), coherent m = true →
       State.rank m.tcb.state ≤ State.rank (pollModel m w).1.tcb.state ∧
       coherent (pollModel m w).1 = true) := by
  refine ⟨fun F T f => rfl, ?_, fun F T t => rfl, ?_, ?_⟩
  · intro T m ret
    cases hw : m.tcb.waker <;> simp [runOps, hw]
  · intro F T s hne
    cases s with
    | Exited t => exact absurd rfl (hne t)
    | Ready f => rfl
    | Running => rfl
    | Invalid => rfl
  · intro T m w hco
    exact poll_monotone_coherent m w hco

theorem state_only_advances_witness :
    entryReplace (State.Ready 7 : State Nat Nat) = (State.Running, some 7) ∧
    (State.Ready 7 : State Nat Nat).take_ret = (none, State.Ready 7) ∧
    State.rank (initModel (Closure.mk [Prim.yieldNow] 5) 0
        (ThreadContext.mk 0 0 0 0 0 0 0) : Model Nat).tcb.state ≤
      State.rank (pollModel (initModel (Closure.mk [Prim.yieldNow] 5) 0
        (ThreadContext.mk 0 0 0 0 0 0 0)) 1).1.tcb.state :=
  ⟨state_only_advances.1 Nat Nat 7,
   state_only_advances.2.2.2.1 Nat Nat (State.Ready 7)
     (fun _ h => State.noConfusion h),
   (state_only_advances.2.2.2.2 Nat
     (initModel (Closure.mk [Prim.yieldNow] 5) 0 (ThreadContext.mk 0 0 0 0 0 0 0))
     1 rfl).1⟩


theorem resume_frame {T : Type} (m : Model T) :
    (resume m).tcb.waker = m.tcb.waker ∧
    (resume m).context = m.context ∧
    (resume m).tcb.context_ptr = m.tcb.context_ptr := by
  cases hp : m.phase with
  | notStarted =>
      cases hs : m.tcb.state with
      | Ready f =>
          obtain ⟨ops, ret⟩ := f
          cases ops with
          | nil =>
              cases hw : m.tcb.waker <;>
                simp [resume, entryReplace, runOps, hp, hs, hw]
          | cons op rest =>
              cases op <;> cases hw : m.tcb.waker <;>
                simp [resume, entryReplace, runOps, hp, hs, hw]
      | Running => simp [resume, entryReplace, hp, hs]
      | Exited t => simp [resume, entryReplace, hp, hs]
      | Invalid => simp [resume, entryReplace, hp, hs]
  | suspended rest ret =>
      cases rest with
      | nil =>
          cases hw : m.tcb.waker <;> simp [resume, runOps, hp, hw]
      | cons op rest2 =>
          cases op <;> cases hw : m.tcb.waker <;> simp [resume, runOps, hp, hw]
  | finished => simp [resume, hp]

theorem poll_ready_state {T : Type} (m : Model T) (w : Waker) (f : Closure T)
    (hs : m.tcb.state = State.Ready f) (hp : m.phase = Phase.notStarted) :
    (pollModel m w).1.tcb.state = State.Running ∨
    (pollModel m w).1.tcb.state = State.Invalid := by
  obtain ⟨ops, ret⟩ := f
  cases ops with
  | nil =>
      right
      simp [pollModel, resume, entryReplace, runOps, State.take_ret, hs, hp]
  | cons op rest =>
      left
      cases op <;>
        simp [pollModel, resume, entryReplace, runOps, State.take_ret, hs, hp]

theorem poll_never_ready {T : Type} (m : Model T) (w : Waker)
    (hco : coherent m = true) (f : Closure T) :
    (pollModel m w).1.tcb.state ≠ State.Ready f := by
  intro hre
  cases hs : m.tcb.state with
  | Ready f0 =>
      have hp : m.phase = Phase.notStarted := by
        cases hp2 : m.phase with
        | notStarted => rfl
        | suspended rest ret => simp [coherent, hs, hp2] at hco
        | finished => simp [coherent, hs, hp2] at hco
      rcases poll_ready_state m w f0 hs hp with h | h <;>
        rw [hre] at h <;> exact State.noConfusion h
  | Running =>
      have h := (poll_monotone_coherent m w hco).1
      rw [hs, hre] at h
      simp [State.rank] at h
  | Exited t =>
      have h := (poll_monotone_coherent m w hco).1
      rw [hs, hre] at h
      simp [State.rank] at h
  | Invalid =>
      have h := (poll_monotone_coherent m w hco).1
      rw [hs, hre] at h
      simp [State.rank] at h

theorem poll_first_sets_waker {T : Type} (m : Model T) (w : Waker)
    (f : Closure T) (hs : m.tcb.state = State.Ready f) :
    (pollModel m w).1.tcb.waker = some w := by
  have hinit : (match m.tcb.state with
      | State.Ready _ =>
        { m with context := m.context.set_pc entryAddress,
                 tcb := { m.tcb with context_ptr := m.base + contextOffset,
                                     waker := some w } }
      | _ => m) =
      { m with context := m.context.set_pc entryAddress,
               tcb := { m.tcb with context_ptr := m.base + contextOffset,
                                   waker := some w } } := by
    rw [hs]
  have hfr := resume_frame
    { m with context := m.context.set_pc entryAddress,
             tcb := { m.tcb with context_ptr := m.base + contextOffset,
                                 waker := some w } }
  simp only [pollModel, hinit]
  exact hfr.1

theorem poll_frame_not_ready {T : Type} (m : Model T) (w : Waker)
    (hne : ∀ f, m.tcb.state ≠ State.Ready f) :
    (pollModel m w).1.tcb.waker = m.tcb.waker ∧
    (pollModel m w).1.context = m.context ∧
    (pollModel m w).1.tcb.context_ptr = m.tcb.context_ptr := by
  have hinit : (match m.tcb.state with
      | State.Ready _ =>
        { m with context := m.context.set_pc entryAddress,
                 tcb := { m.tcb with context_ptr := m.base + contextOffset,
                                     waker := some w } }
      | _ => m) = m := by
    cases hs : m.tcb.state with
    | Ready f => exact absurd hs (hne f)
    | Running => rfl
    | Exited t => rfl
    | Invalid => rfl
  have hfr := resume_frame m
  simp only [pollModel, hinit]
  exact ⟨hfr.1, hfr.2.1, hfr.2.2⟩

/-- C9: the waker slot is written exactly once, on the poll that finds the
state `Ready`, with (a clone of) the waker supplied to that poll; a poll that
finds any other state leaves the waker slot, the context record (including
its program counter) and the stored context-record address unchanged,
performing only the switch into the thread and the state inspection; and
after any poll of a coherent model the state is never `Ready` again, so the
initializing write cannot recur. -/
theorem waker_written_once_on_first_poll :
    (∀ (T : Type) (m : Model T) (w : Waker) (f : Closure T),
       m.tcb.state = State.Ready f → (pollModel m w).1.tcb.waker = some w) ∧
    (∀ (T : Type) (m : Model T) (w : Waker),
       (∀ f, m.tcb.state ≠ State.Ready f) →
       (pollModel m w).1.tcb.waker = m.tcb.waker ∧
       (pollModel m w).1.context = m.context ∧
       (pollModel m w).1.tcb.context_ptr = m.tcb.context_ptr) ∧
    (∀ (T : Type) (m : Model T) (w : Waker), coherent m = true →
       ∀ f, (pollModel m w).1.tcb.state ≠ State.Ready f) :=
  ⟨fun _ m w f hs => poll_first_sets_waker m w f hs,
   fun _ m w hne => poll_frame_not_ready m w hne,
   fun _ m w hco f => poll_never_ready m w hco f⟩

theorem waker_written_once_on_first_poll_witness :
    (pollModel (initModel (Closure.mk [Prim.park] 5) 0
        (ThreadContext.mk 0 0 0 0 0 0 0) : Model Nat) 9).1.tcb.waker = some 9 ∧
    (pollModel (pollModel (initModel (Closure.mk [Prim.park] 5) 0
        (ThreadContext.mk 0 0 0 0 0 0 0) : Model Nat) 9).1 4).1.tcb.waker =
      (pollModel (initModel (Closure.mk [Prim.park] 5) 0
        (ThreadContext.mk 0 0 0 0 0 0 0) : Model Nat) 9).1.tcb.waker ∧
    (∀ f, (pollModel (initModel (Closure.mk [Prim.park] 5) 0
        (ThreadContext.mk 0 0 0 0 0 0 0) : Model Nat) 9).1.tcb.state ≠
          State.Ready f) :=
  ⟨waker_written_once_on_first_poll.1 Nat
     (initModel (Closure.mk [Prim.park] 5) 0 (ThreadContext.mk 0 0 0 0 0 0 0))
     9 (Closure.mk [Prim.park] 5) rfl,
   (waker_written_once_on_first_poll.2.1 Nat
     (pollModel (initModel (Closure.mk [Prim.park] 5) 0
       (ThreadContext.mk 0 0 0 0 0 0 0)) 9).1 4
     (by
        intro f h
        have hrun : (pollModel (initModel (Closure.mk [Prim.park] 5) 0
            (ThreadContext.mk 0 0 0 0 0 0 0) : Model Nat) 9).1.tcb.state =
            State.Running := by decide
        rw [hrun] at h
        exact State.noConfusion h)).1,
   waker_written_once_on_first_poll.2.2 Nat
     (initModel (Closure.mk [Prim.park] 5) 0 (ThreadContext.mk 0 0 0 0 0 0 0))
     9 rfl⟩

theorem poll_first_context {T : Type} (m : Model T) (w : Waker)
    (f : Closure T) (hs : m.tcb.state = State.Ready f) :
    (pollModel m w).1.context = m.context.set_pc entryAddress ∧
    (pollModel m w).1.tcb.context_ptr = m.base + contextOffset := by
  have hinit : (match m.tcb.state with
      | State.Ready _ =>
        { m with context := m.context.set_pc entryAddress,
                 tcb := { m.tcb with context_ptr := m.base + contextOffset,
                                     waker := some w } }
      | _ => m) =
      { m with context := m.context.set_pc entryAddress,
               tcb := { m.tcb with context_ptr := m.base + contextOffset,
                                   waker := some w } } := by
    rw [hs]
  have hfr := resume_frame
    { m with context := m.context.set_pc entryAddress,
             tcb := { m.tcb with context_ptr := m.base + contextOffset,
                                 waker := some w } }
  simp only [pollModel, hinit]
  exact ⟨hfr.2.1, hfr.2.2⟩

/-- C3 counterexample: a first poll of a future whose stack memory holds
non-zero garbage where the context record lives.  The claim says the context
record is zeroed before `set_pc`, i.e. equals `zeroedInitContext`; in fact
only the program-counter slot is written and the callee-saved slots keep
their garbage (here `rbx` stays `1`). -/
theorem first_poll_does_not_zero_context :
    (pollModel (initModel (Closure.mk [] 0) 0
        (ThreadContext.mk 1 2 3 4 5 6 7) : Model Nat) 9).1.context ≠
      zeroedInitContext entryAddress ∧
    (pollModel (initModel (Closure.mk [] 0) 0
        (ThreadContext.mk 1 2 3 4 5 6 7) : Model Nat) 9).1.context.rbx = 1 := by
  decide

/-- C3 amended: on a poll that finds the state `Ready`, poll computes the
address of the context record at the top of the stack block
(`base + RAW_SIZE - size_of::<ThreadContext>()`), writes the entry function's
address into the record's program-counter slot via `set_pc`, and stores the
record's address into `context_ptr` — leaving the other callee-saved register
slots of the record unchanged (they are not zeroed). -/
theorem first_poll_sets_pc_only (T : Type) (m : Model T) (w : Waker)
    (f : Closure T) (hs : m.tcb.state = State.Ready f) :
    (pollModel m w).1.context = m.context.set_pc entryAddress ∧
    (pollModel m w).1.context.rbx = m.context.rbx ∧
    (pollModel m w).1.context.rbp = m.context.rbp ∧
    (pollModel m w).1.context.r12 = m.context.r12 ∧
    (pollModel m w).1.context.r13 = m.context.r13 ∧
    (pollModel m w).1.context.r14 = m.context.r14 ∧
    (pollModel m w).1.context.r15 = m.context.r15 ∧
    (pollModel m w).1.context.rip = entryAddress ∧
    (pollModel m w).1.tcb.context_ptr = m.base + contextOffset := by
  obtain ⟨h1, h2⟩ := poll_first_context m w f hs
  refine ⟨h1, ?_, ?_, ?_, ?_, ?_, ?_, ?_, h2⟩ <;>
    rw [h1] <;> rfl

theorem first_poll_sets_pc_only_witness :
    (pollModel (initModel (Closure.mk [] 0) 0
        (ThreadContext.mk 1 2 3 4 5 6 7) : Model Nat) 9).1.context =
      (ThreadContext.mk 1 2 3 4 5 6 7).set_pc entryAddress ∧
    (pollModel (initModel (Closure.mk [] 0) 0
        (ThreadContext.mk 1 2 3 4 5 6 7) : Model Nat) 9).1.tcb.context_ptr =
      0 + contextOffset :=
  ⟨(first_poll_sets_pc_only Nat
      (initModel (Closure.mk [] 0) 0 (ThreadContext.mk 1 2 3 4 5 6 7)) 9
      (Closure.mk [] 0) rfl).1,
   (first_poll_sets_pc_only Nat
      (initModel (Closure.mk [] 0) 0 (ThreadContext.mk 1 2 3 4 5 6 7)) 9
      (Closure.mk [] 0) rfl).2.2.2.2.2.2.2.2⟩

/-- C8: constructing a `ThreadFuture` from a closure initializes the TCB with
state `Ready f`, canary equal to the magic constant, a null context pointer
and an empty waker slot, and asserts at construction time that the TCB fits
in the `RAW_SIZE` block: when `size_of::<TCB<F, T>>` exceeds `RAW_SIZE` the
union's size exceeds `RAW_SIZE` and the construction fails the
"TCB size exceed" assertion. -/
theorem fromClosure_asserts_size (F T : Type) (f : F) (tcbSize : Nat) :
    (tcbSize ≤ RAW_SIZE →
       ThreadFuture.fromClosure f tcbSize =
         Except.ok { context_ptr := 0, waker := none, canary := CANARY,
                     state := (State.Ready f : State F T) }) ∧
    (RAW_SIZE < tcbSize →
       ThreadFuture.fromClosure (T := T) f tcbSize =
         Except.error "TCB size exceed") := by
  constructor
  · intro h
    have hu : unionSize tcbSize = RAW_SIZE := by
      rw [unionSize, Nat.max_eq_right h]
      decide
    simp [ThreadFuture.fromClosure, hu]
  · intro h
    have hu : unionSize tcbSize ≠ RAW_SIZE := by
      rw [unionSize, Nat.max_eq_left h.le]
      rw [RAW_SIZE] at h ⊢
      omega
    simp [ThreadFuture.fromClosure, hu]

theorem fromClosure_asserts_size_witness :
    ThreadFuture.fromClosure (T := Nat) 42 100 =
      Except.ok { context_ptr := 0, waker := none, canary := CANARY,
                  state := (State.Ready 42 : State Nat Nat) } ∧
    ThreadFuture.fromClosure (T := Nat) 42 0x2001 =
      Except.error "TCB size exceed" :=
  ⟨(fromClosure_asserts_size Nat Nat 42 100).1 (by decide),
   (fromClosure_asserts_size Nat Nat 42 0x2001).2 (by decide)⟩

/-- C4: evaluating the drop glue of `ThreadFuture` at the failing input — a
future dropped while its state is still `Ready f` — performs no drop at all:
the embedded closure is leaked instead of dropped, contrary to the claim.
(After `Exited` or `Invalid` nothing is dropped either, so the no-double-drop
half of the claim holds vacuously.) -/
theorem dropGlue_drops_nothing (F T : Type) (f : F) (t : T) :
    ThreadFuture.dropGlue (State.Ready f : State F T) = [] ∧
    ThreadFuture.dropGlue (State.Exited t : State F T) = [] ∧
    ThreadFuture.dropGlue (State.Invalid : State F T) = [] :=
  ⟨rfl, rfl, rfl⟩
